import Mathlib

/-!
Shallow embedding of samsa/brokers.py (pykafka / samsa broker registry).

Python objects are modelled by a heap: a function from addresses (Nat) to
optional broker records, together with an allocation counter.  The registry
(`BrokerMap.__brokers`) is an association list from dictionary keys to heap
addresses, mirroring a Python dict whose values are object references.
Python dictionary keys carry their runtime type, so an int key and a str key
are distinct (`PyKey`).  Exceptions are modelled by an optional error in each
result record; the post-state heap is always returned, because a Python
exception does not roll back attribute assignments that already happened.
ZooKeeper interactions are modelled by passing the fetch result in as an
argument (`none` encodes NoNodeException) and recording the watch
registrations and the fetched paths performed by the call.
-/

set_option autoImplicit false

namespace Samsa

/-- A Python dictionary key as used here: either an int or a str.  Python
equality distinguishes `5` from `"5"`. -/
inductive PyKey where
  | int (n : Int)
  | str (s : String)
deriving DecidableEq, Repr

/-- The exceptions that the embedded code can raise:
`noNode` is `zookeeper.NoNodeException`, `improperlyConfigured` is
`samsa.exceptions.ImproperlyConfigured`, `valueError` is Python
`ValueError` (failed unpacking or failed `int()`), `keyError` is a failed
dict lookup. -/
inductive PyError where
  | noNode
  | improperlyConfigured
  | valueError
  | keyError
deriving DecidableEq, Repr

/-- Digit list to Nat (the list is assumed to be all decimal digits). -/
def digitsToNat (l : List Char) : Nat :=
  l.foldl (fun a c => a * 10 + (c.toNat - 48)) 0

/-- Python whitespace as stripped by `int()`: space, tab, newline,
carriage return, vertical tab, form feed. -/
def isSpaceChar (c : Char) : Bool :=
  c = ' ' || c = '\t' || c = '\n' || c = '\r' || c.toNat = 11 || c.toNat = 12

/-- Strip whitespace from both ends of a character list. -/
def stripChars (l : List Char) : List Char :=
  ((l.dropWhile isSpaceChar).reverse.dropWhile isSpaceChar).reverse

/-- One or more decimal digits, as a non-negative integer. -/
def parseDigits (l : List Char) : Option Nat :=
  if l ≠ [] ∧ l.all Char.isDigit then some (digitsToNat l) else none

/-- Model of Python `int(s)` on a str argument: strip surrounding
whitespace, allow one optional sign, then one or more decimal digits;
anything else raises `ValueError` (`none`). -/
def pyIntParse (s : String) : Option Int :=
  match stripChars s.data with
  | [] => none
  | c :: rest =>
    if c = '-' then (parseDigits rest).map (fun n => -(n : Int))
    else if c = '+' then (parseDigits rest).map (fun n => (n : Int))
    else (parseDigits (c :: rest)).map (fun n => (n : Int))

/-- Split a character list at every occurrence of `sep`; `cur` holds the
characters of the current field in reverse.  Mirrors Python
`str.split(sep)` for a one-character separator: `"".split(':') == ['']`,
`":".split(':') == ['', '']`. -/
def splitChars (sep : Char) (cur : List Char) : List Char → List (List Char)
  | [] => [cur.reverse]
  | c :: rest =>
    if c = sep then cur.reverse :: splitChars sep [] rest
    else splitChars sep (c :: cur) rest

/-- Model of Python `data.split(':')`. -/
def pySplitColon (s : String) : List String :=
  (splitChars ':' [] s.data).map String.mk

/-- Model of Python `int(x)` on a dict key: identity on ints, decimal
parsing on strings. -/
def pyInt (k : PyKey) : Option Int :=
  match k with
  | .int n => some n
  | .str s => pyIntParse s

/-- `samsa.client.Client` is outside the embedded core (wire-protocol
collaborator); we model only its constructor arguments and its object
identity (`objId`). -/
structure ClientObj where
  host : Option String
  port : Option Int
  objId : Nat
deriving DecidableEq, Repr

/-- The mutable state of one `Broker` object: `id` (set by `__init__` via
`int(id)`), the name-mangled `_Broker__host` / `_Broker__port` attributes
(`None` until configured), `is_dead`, and the lazily created
`_Broker__client` attribute (absent = `none`). -/
structure BrokerObj where
  id : Int
  host : Option String
  port : Option Int
  is_dead : Bool
  clientCache : Option ClientObj
deriving DecidableEq, Repr

/-- The object heap: Python object references are addresses into `objs`;
`next` is the next fresh address. -/
structure Heap where
  objs : Nat → Option BrokerObj
  next : Nat

/-- Dereference an object. -/
def Heap.get (h : Heap) (r : Nat) : Option BrokerObj := h.objs r

/-- Overwrite the object at address `r` (attribute mutation in place). -/
def Heap.set (h : Heap) (r : Nat) (b : BrokerObj) : Heap :=
  { objs := fun x => if x = r then some b else h.objs x, next := h.next }

/-- Allocate a new object at a fresh address. -/
def Heap.alloc (h : Heap) (b : BrokerObj) : Heap × Nat :=
  ({ objs := fun x => if x = h.next then some b else h.objs x, next := h.next + 1 },
   h.next)

/-- Which `_configure` a registered watch will invoke when it fires. -/
inductive WatchCB where
  | mapCB
  | brokerCB (r : Nat)
deriving DecidableEq, Repr

/-- One watch registration: watched path plus the callback. -/
structure WatchReg where
  path : String
  cb : WatchCB
deriving DecidableEq, Repr

/-- The state of `BrokerMap.__brokers`: a dict from keys to broker object
references, as an association list in insertion order. -/
structure BrokerMapState where
  brokers : List (PyKey × Nat)
deriving DecidableEq, Repr

/-- Association-list lookup, first match wins (Python dict lookup; keys are
unique in any state reachable from the code). -/
def lookupA (l : List (PyKey × Nat)) (k : PyKey) : Option Nat :=
  match l with
  | [] => none
  | (k2, v) :: rest => if k2 = k then some v else lookupA rest k

/-- The keys of the registry dict. -/
def keysOf (bm : BrokerMapState) : List PyKey :=
  bm.brokers.map Prod.fst

/-- The path `'/brokers/ids'` used by `BrokerMap._configure`. -/
def brokersPath : String := "/brokers/ids"

/-- The path `'/brokers/ids/%s' % self.id` used by `Broker._configure`. -/
def brokerNodePath (i : Int) : String := "/brokers/ids/" ++ toString i

/-- The fields `Broker.__init__` sets for broker id `i`:
host and port unset, `is_dead = False`, no cached client. -/
def Broker.initFields (i : Int) : BrokerObj :=
  { id := i, host := none, port := none, is_dead := false, clientCache := none }

/-- `Broker.__init__(cluster, id)`: stores `int(id)`; a key that `int()`
cannot convert raises `ValueError`. -/
def Broker.init (k : PyKey) : Except PyError BrokerObj :=
  match pyInt k with
  | some m => .ok (Broker.initFields m)
  | none => .error .valueError

/-- The mutation `broker.is_dead = True` performed by `BrokerMap._configure`
on an evicted broker (the `none` branch is unreachable for a valid
reference). -/
def Broker.markDead (h : Heap) (r : Nat) : Heap :=
  match h.get r with
  | some b => h.set r { b with is_dead := true }
  | none => h

/-- Result of one `Broker._configure` call: post-state heap, watch
registrations, fetched paths, and the raised exception if any. -/
structure BrokConfResult where
  heap : Heap
  watches : List WatchReg
  fetches : List String
  error : Option PyError

/-- `Broker._configure(event=None)`: fetch `/brokers/ids/<id>` with a watch
on itself, then `creator, self.__host, port = data.split(':')` and
`self.__port = int(port)`.  `resp = none` models `NoNodeException` from the
fetch (no watch is registered, nothing is mutated).  Unpacking a list whose
length is not 3 raises `ValueError` before any target is assigned; with
exactly 3 fields the host attribute is assigned during unpacking, and only
then is `int(port)` evaluated, so a non-integer port raises `ValueError`
after the host mutation.  (The outer `none` branch models a dangling
reference and is unreachable from the code.) -/
def Broker.configure (h : Heap) (r : Nat) (resp : Option String) : BrokConfResult :=
  match h.get r with
  | none => ⟨h, [], [], some .keyError⟩
  | some b =>
    let node := brokerNodePath b.id
    match resp with
    | none => ⟨h, [], [node], some .noNode⟩
    | some data =>
      let w : List WatchReg := [⟨node, .brokerCB r⟩]
      match pySplitColon data with
      | [_creator, hostF, portF] =>
        let h1 := h.set r { b with host := some hostF }
        match pyIntParse portF with
        | none => ⟨h1, w, [node], some .valueError⟩
        | some n => ⟨h1.set r { b with host := some hostF, port := some n }, w, [node], none⟩
      | _ => ⟨h, w, [node], some .valueError⟩

/-- The `client` property: return the cached `_Broker__client` if present,
otherwise construct `Client(self.host, self.port)`, cache it and return it.
Constructing the client consumes a fresh object identity. -/
def Broker.client (h : Heap) (r : Nat) : Option (Heap × ClientObj) :=
  match h.get r with
  | none => none
  | some b =>
    match b.clientCache with
    | some c => some (h, c)
    | none =>
      let c : ClientObj := { host := b.host, port := b.port, objId := h.next }
      some ({ Heap.set h r { b with clientCache := some c } with next := h.next + 1 }, c)

/-- Result of one `BrokerMap._configure` call. -/
structure MapConfResult where
  heap : Heap
  state : BrokerMapState
  watches : List WatchReg
  fetches : List String
  error : Option PyError

/-- One step of the add loop of `BrokerMap._configure`:
`if broker_id not in self.__brokers: self.__brokers[broker.id] = Broker(...)`. -/
def insertBroker (acc : Heap × BrokerMapState) (i : Int) : Heap × BrokerMapState :=
  let (h, bm) := acc
  match lookupA bm.brokers (.int i) with
  | some _ => (h, bm)
  | none =>
    let (h2, r) := h.alloc (Broker.initFields i)
    (h2, ⟨bm.brokers ++ [(.int i, r)]⟩)

/-- `BrokerMap._configure(event=None)`: fetch the children of
`/brokers/ids` with a watch on itself; `NoNodeException` (`resp = none`)
is converted to `ImproperlyConfigured` with nothing registered or mutated.
Otherwise `map(int, broker_ids)` eagerly converts every child name (a
non-integer child raises `ValueError` before the loop); the loop inserts a
fresh `Broker` for each id not yet present and collects `alive`;
afterwards every entry whose key is not alive has `is_dead` set on its
object and is deleted from the dict. -/
def BrokerMap.configure (h : Heap) (bm : BrokerMapState) (resp : Option (List String)) :
    MapConfResult :=
  match resp with
  | none => ⟨h, bm, [], [brokersPath], some .improperlyConfigured⟩
  | some childNames =>
    let w : List WatchReg := [⟨brokersPath, .mapCB⟩]
    match childNames.mapM pyIntParse with
    | none => ⟨h, bm, w, [brokersPath], some .valueError⟩
    | some ids =>
      let hbm1 := ids.foldl insertBroker (h, bm)
      let alive := ids.map PyKey.int
      let deadList := hbm1.2.brokers.filter (fun p => decide (p.1 ∉ alive))
      let h2 := deadList.foldl (fun hh p => Broker.markDead hh p.2) hbm1.1
      let bm2 : BrokerMapState := ⟨hbm1.2.brokers.filter (fun p => decide (p.1 ∈ alive))⟩
      ⟨h2, bm2, w, [brokersPath], none⟩

/-- `BrokerMap.get(id)`: dict lookup `self.__brokers[id]`; a missing key
raises `KeyError`.  (The lazy-configuration guard decorating the method
lives in `samsa.utils.delayedconfig`, outside the embedded files; `get` is
modelled on an already configured registry state.) -/
def BrokerMap.get (bm : BrokerMapState) (k : PyKey) : Except PyError Nat :=
  match lookupA bm.brokers k with
  | some r => .ok r
  | none => .error .keyError

/-- A ZooKeeper response delivered to a firing watch: a children listing
(for the map watch) or a node data read (for a broker watch); `none` inside
encodes `NoNodeException`. -/
inductive ZResp where
  | kids (r : Option (List String))
  | dat (r : Option String)

/-- Result of delivering a watch event: combined post state. -/
structure SysResult where
  heap : Heap
  state : BrokerMapState
  watches : List WatchReg
  error : Option PyError

/-- Delivering a change notification to a registered watch invokes the
stored callback, which is the corresponding `_configure`; a response of
the wrong kind for the callback cannot occur and yields `none`. -/
def fireWatch (w : WatchReg) (h : Heap) (bm : BrokerMapState) (resp : ZResp) :
    Option SysResult :=
  match w.cb, resp with
  | .mapCB, .kids r =>
    let res := BrokerMap.configure h bm r
    some ⟨res.heap, res.state, res.watches, res.error⟩
  | .brokerCB ref, .dat r =>
    let res := Broker.configure h ref r
    some ⟨res.heap, bm, res.watches, res.error⟩
  | _, _ => none

/-- Run a sequence of `Broker._configure` calls against the fetch results
in `tr`, threading the heap (exceptions propagate to each caller but the
heap retains whatever mutations happened). -/
def brokerRun (h : Heap) (r : Nat) : List (Option String) → Heap
  | [] => h
  | resp :: rest => brokerRun (Broker.configure h r resp).heap r rest

/-- Spec-side definition ("last successfully parsed value"): fold over the
fetch results keeping the host/port pair of the last fully successful
parse. -/
def lastParsedAux (acc : Option (String × Int)) : List (Option String) → Option (String × Int)
  | [] => acc
  | x :: rest =>
    match x with
    | none => lastParsedAux acc rest
    | some d =>
      match pySplitColon d with
      | [_c, hs, ps] =>
        match pyIntParse ps with
        | some n => lastParsedAux (some (hs, n)) rest
        | none => lastParsedAux acc rest
      | _ => lastParsedAux acc rest

/-- The host/port components of the last successfully parsed node value of
a trace, if any. -/
def lastParsedHostPort (tr : List (Option String)) : Option (String × Int) :=
  lastParsedAux none tr

/-- Render a parse accumulator as the host/port attribute pair it induces. -/
def renderPair (acc : Option (String × Int)) : Option String × Option Int :=
  match acc with
  | none => (none, none)
  | some (hs, n) => (some hs, some n)

/-- A fetch result is benign for atomicity when it is a missing node, a
value with the wrong number of colon fields, or a fully parseable value:
exactly the responses that do not trigger the half-update of the host
attribute. -/
def goodResp (x : Option String) : Bool :=
  match x with
  | none => true
  | some d =>
    match pySplitColon d with
    | [_c, _hs, ps] => (pyIntParse ps).isSome
    | _ => true

/-- Well-formedness of a registry state against a heap: the dict keys are
distinct, the stored references are distinct, valid and below the
allocation mark, and addresses at or above the mark are unallocated. -/
structure MapWF (h : Heap) (bm : BrokerMapState) : Prop where
  keysND : (bm.brokers.map Prod.fst).Nodup
  refsND : (bm.brokers.map Prod.snd).Nodup
  refsLt : ∀ p ∈ bm.brokers, p.2 < h.next
  refsDom : ∀ p ∈ bm.brokers, (h.objs p.2).isSome
  heapDom : ∀ x, h.next ≤ x → h.objs x = none

/-- The dead-marking loop of `BrokerMap._configure` as a fold. -/
def markDeadFold (L : List (PyKey × Nat)) (h : Heap) : Heap :=
  L.foldl (fun hh p => Broker.markDead hh p.2) h

/-- The add loop, written recursively; equal to the fold in
`BrokerMap.configure`. -/
def insertAll : List Int → Heap → BrokerMapState → Heap × BrokerMapState
  | [], h, bm => (h, bm)
  | j :: rest, h, bm =>
    insertAll rest (insertBroker (h, bm) j).1 (insertBroker (h, bm) j).2

/-- The property asserted by claim C1 for a configure pass from registry
state `(h, bm)` whose fetched children parse to `ids`: the pass succeeds,
its key set equals the integer ids of the children, ids new to the registry
are bound to freshly created broker records, and ids that disappeared keep
their old object reference, now marked dead, and leave the registry. -/
def C1Prop (h : Heap) (bm : BrokerMapState) (children : List String) (ids : List Int) : Prop :=
  (BrokerMap.configure h bm (some children)).error = none ∧
  (∀ k, k ∈ keysOf (BrokerMap.configure h bm (some children)).state ↔
    k ∈ ids.map PyKey.int) ∧
  (∀ i ∈ ids, PyKey.int i ∉ keysOf bm →
    ∃ r, lookupA (BrokerMap.configure h bm (some children)).state.brokers
        (PyKey.int i) = some r ∧
      h.objs r = none ∧ h.next ≤ r ∧
      (BrokerMap.configure h bm (some children)).heap.objs r =
        some (Broker.initFields i)) ∧
  (∀ k ∈ keysOf bm, k ∉ ids.map PyKey.int →
    ∃ r b, lookupA bm.brokers k = some r ∧ h.objs r = some b ∧
      (BrokerMap.configure h bm (some children)).heap.objs r =
        some { b with is_dead := true } ∧
      k ∉ keysOf (BrokerMap.configure h bm (some children)).state)

/-- A one-broker heap used in concrete instantiations: the given broker
object at address 0, allocation mark 1. -/
def soloHeap (b : BrokerObj) : Heap :=
  ⟨fun x => if x = 0 then some b else none, 1⟩

/-- A broker object with previously configured host and port, for concrete
instantiations. -/
def oldBroker : BrokerObj :=
  { id := 1, host := some "oldhost", port := some 1, is_dead := false, clientCache := none }

/-- The amended property: a value with the wrong number of colon fields
raises `ValueError` and mutates nothing; a 3-field value with a
non-integer port raises `ValueError` after overwriting the host attribute
with the 2nd field, while the port keeps its prior value. -/
def C2Prop (h : Heap) (r : Nat) (b : BrokerObj) : Prop :=
  (∀ d, (pySplitColon d).length ≠ 3 →
    (Broker.configure h r (some d)).error = some PyError.valueError ∧
    (Broker.configure h r (some d)).heap = h) ∧
  (∀ d c hs ps, pySplitColon d = [c, hs, ps] → pyIntParse ps = none →
    (Broker.configure h r (some d)).error = some PyError.valueError ∧
    (Broker.configure h r (some d)).heap.objs r = some { b with host := some hs } ∧
    (∀ x, x ≠ r → (Broker.configure h r (some d)).heap.objs x = h.objs x))

/-- The `Client(self.host, self.port)` object constructed on first access. -/
def clientOf (b : BrokerObj) (h : Heap) : ClientObj := ⟨b.host, b.port, h.next⟩

/-- The heap after the first `client` access stored the new object. -/
def heapAfterClient (h : Heap) (r : Nat) (b : BrokerObj) : Heap :=
  { Heap.set h r { b with clientCache := some (clientOf b h) } with next := h.next + 1 }

/-! ### Helper lemmas: association-list lookup -/

theorem lookupA_append (l t : List (PyKey × Nat)) (k : PyKey) :
    lookupA (l ++ t) k =
      match lookupA l k with
      | some v => some v
      | none => lookupA t k := by
  induction l with
  | nil => simp [lookupA]
  | cons p rest ih =>
    obtain ⟨k2, v⟩ := p
    by_cases hk : k2 = k <;> simp [lookupA, hk, ih]

theorem lookupA_eq_none_iff (l : List (PyKey × Nat)) (k : PyKey) :
    lookupA l k = none ↔ k ∉ l.map Prod.fst := by
  induction l with
  | nil => simp [lookupA]
  | cons p rest ih =>
    obtain ⟨k2, v⟩ := p
    by_cases hk : k2 = k
    · subst hk
      simp [lookupA]
    · simp only [lookupA, if_neg hk]
      rw [ih]
      simp only [List.map_cons, List.mem_cons, not_or]
      constructor
      · exact fun hn => ⟨fun he => hk he.symm, hn⟩
      · exact fun hn => hn.2

theorem lookupA_mem {l : List (PyKey × Nat)} {k : PyKey} {r : Nat}
    (hl : lookupA l k = some r) : (k, r) ∈ l := by
  induction l with
  | nil => simp [lookupA] at hl
  | cons p rest ih =>
    obtain ⟨k2, v⟩ := p
    by_cases hk : k2 = k
    · simp [lookupA, hk] at hl
      subst hk hl
      exact List.mem_cons_self _ _
    · simp [lookupA, hk] at hl
      exact List.mem_cons_of_mem _ (ih hl)

theorem exists_lookupA_of_mem {l : List (PyKey × Nat)} {k : PyKey}
    (hk : k ∈ l.map Prod.fst) : ∃ r, lookupA l k = some r := by
  rcases ho : lookupA l k with _ | r
  · exact absurd hk ((lookupA_eq_none_iff l k).mp ho)
  · exact ⟨r, rfl⟩

theorem lookupA_of_mem_nodup {l : List (PyKey × Nat)} {k : PyKey} {r : Nat}
    (hm : (k, r) ∈ l) (hnd : (l.map Prod.fst).Nodup) : lookupA l k = some r := by
  induction l with
  | nil => simp at hm
  | cons p rest ih =>
    obtain ⟨k2, v⟩ := p
    simp only [List.map_cons, List.nodup_cons] at hnd
    rcases List.mem_cons.mp hm with heq | hmem
    · cases heq
      simp [lookupA]
    · have hk2 : k2 ≠ k := by
        intro he
        exact hnd.1 (he ▸ (List.mem_map.mpr ⟨(k, r), hmem, rfl⟩))
      simp [lookupA, hk2, ih hmem hnd.2]

/-! ### Helper lemmas: heap primitives -/

theorem Heap.get_set_self (h : Heap) (r : Nat) (b : BrokerObj) :
    (h.set r b).objs r = some b := by
  simp [Heap.set]

theorem Heap.get_set_ne (h : Heap) (r x : Nat) (b : BrokerObj) (hx : x ≠ r) :
    (h.set r b).objs x = h.objs x := by
  simp [Heap.set, hx]

theorem Heap.set_next (h : Heap) (r : Nat) (b : BrokerObj) :
    (h.set r b).next = h.next := rfl

theorem Broker.markDead_next (h : Heap) (r : Nat) :
    (Broker.markDead h r).next = h.next := by
  unfold Broker.markDead
  rcases h.get r with _ | b <;> rfl

theorem Broker.markDead_objs_ne (h : Heap) (r x : Nat) (hx : x ≠ r) :
    (Broker.markDead h r).objs x = h.objs x := by
  unfold Broker.markDead
  rcases h.get r with _ | b
  · rfl
  · exact Heap.get_set_ne h r x _ hx

theorem Broker.markDead_objs_self (h : Heap) (r : Nat) :
    (Broker.markDead h r).objs r =
      (h.objs r).map (fun b => { b with is_dead := true }) := by
  unfold Broker.markDead Heap.get
  rcases hb : h.objs r with _ | b
  · simp [hb]
  · simp [Heap.set]

/-! ### Helper lemmas: the dead-marking loop -/

theorem markDeadFold_objs_not_mem (L : List (PyKey × Nat)) (h : Heap) (r : Nat)
    (hr : r ∉ L.map Prod.snd) : (markDeadFold L h).objs r = h.objs r := by
  induction L generalizing h with
  | nil => rfl
  | cons p rest ih =>
    simp only [List.map_cons, List.mem_cons, not_or] at hr
    simpa [markDeadFold] using
      (ih (Broker.markDead h p.2) hr.2).trans (Broker.markDead_objs_ne h p.2 r hr.1)

theorem markDeadFold_objs_mem (L : List (PyKey × Nat)) (h : Heap) (k : PyKey) (r : Nat)
    (hnd : (L.map Prod.snd).Nodup) (hm : (k, r) ∈ L) :
    (markDeadFold L h).objs r = (h.objs r).map (fun b => { b with is_dead := true }) := by
  induction L generalizing h with
  | nil => simp at hm
  | cons p rest ih =>
    obtain ⟨pk, pr⟩ := p
    simp only [List.map_cons, List.nodup_cons] at hnd
    rcases List.mem_cons.mp hm with heq | hmem
    · injection heq with hek her
      subst hek her
      exact (show (markDeadFold ((k, r) :: rest) h).objs r =
            (Broker.markDead h r).objs r from
          markDeadFold_objs_not_mem rest (Broker.markDead h r) r hnd.1).trans
        (Broker.markDead_objs_self h r)
    · have hne : r ≠ pr := by
        intro he
        apply hnd.1
        rw [← he]
        exact List.mem_map.mpr ⟨(k, r), hmem, rfl⟩
      have h2 : (markDeadFold ((pk, pr) :: rest) h).objs r =
          ((Broker.markDead h pr).objs r).map (fun b => { b with is_dead := true }) :=
        ih (Broker.markDead h pr) hnd.2 hmem
      rw [h2, Broker.markDead_objs_ne h pr r hne]

theorem markDeadFold_next (L : List (PyKey × Nat)) (h : Heap) :
    (markDeadFold L h).next = h.next := by
  induction L generalizing h with
  | nil => rfl
  | cons p rest ih =>
    simpa [markDeadFold] using (ih (Broker.markDead h p.2)).trans (Broker.markDead_next h p.2)

/-! ### Helper lemmas: the add loop of `BrokerMap._configure` -/

theorem insertAll_eq_foldl (ids : List Int) (h : Heap) (bm : BrokerMapState) :
    ids.foldl insertBroker (h, bm) = insertAll ids h bm := by
  induction ids generalizing h bm with
  | nil => rfl
  | cons j rest ih =>
    simp only [List.foldl_cons, insertAll]
    rw [← ih]

theorem insertBroker_present {h : Heap} {bm : BrokerMapState} {j : Int} {r : Nat}
    (hlk : lookupA bm.brokers (PyKey.int j) = some r) :
    insertBroker (h, bm) j = (h, bm) := by
  simp [insertBroker, hlk]

theorem insertBroker_fst_next {h : Heap} {bm : BrokerMapState} {j : Int} :
    (insertBroker (h, bm) j).1.next = h.next ∨
      (insertBroker (h, bm) j).1.next = h.next + 1 := by
  rcases hlk : lookupA bm.brokers (PyKey.int j) with _ | r <;>
    simp [insertBroker, hlk, Heap.alloc]

theorem insertBroker_absent_next {h : Heap} {bm : BrokerMapState} {j : Int}
    (hlk : lookupA bm.brokers (PyKey.int j) = none) :
    (insertBroker (h, bm) j).1.next = h.next + 1 := by
  simp [insertBroker, hlk, Heap.alloc]

theorem insertBroker_absent_objs {h : Heap} {bm : BrokerMapState} {j : Int}
    (hlk : lookupA bm.brokers (PyKey.int j) = none) (x : Nat) :
    (insertBroker (h, bm) j).1.objs x =
      if x = h.next then some (Broker.initFields j) else h.objs x := by
  simp [insertBroker, hlk, Heap.alloc]

theorem insertBroker_absent_brokers {h : Heap} {bm : BrokerMapState} {j : Int}
    (hlk : lookupA bm.brokers (PyKey.int j) = none) :
    (insertBroker (h, bm) j).2.brokers = bm.brokers ++ [(PyKey.int j, h.next)] := by
  simp [insertBroker, hlk, Heap.alloc]

theorem insertAll_next_le (ids : List Int) (h : Heap) (bm : BrokerMapState) :
    h.next ≤ (insertAll ids h bm).1.next := by
  induction ids generalizing h bm with
  | nil => exact le_refl _
  | cons j rest ih =>
    rw [insertAll]
    refine le_trans ?_ (ih _ _)
    rcases @insertBroker_fst_next h bm j with he | he <;> omega

theorem insertAll_objs_lt (ids : List Int) (h : Heap) (bm : BrokerMapState)
    (x : Nat) (hx : x < h.next) : (insertAll ids h bm).1.objs x = h.objs x := by
  induction ids generalizing h bm with
  | nil => rfl
  | cons j rest ih =>
    rw [insertAll]
    rcases hlk : lookupA bm.brokers (PyKey.int j) with _ | r
    · have hx2 : x < (insertBroker (h, bm) j).1.next := by
        rw [insertBroker_absent_next hlk]
        omega
      rw [ih _ _ hx2, insertBroker_absent_objs hlk]
      have hne : x ≠ h.next := Nat.ne_of_lt hx
      simp [hne]
    · rw [insertBroker_present hlk]
      exact ih h bm hx

theorem insertAll_append (ids : List Int) (h : Heap) (bm : BrokerMapState) :
    ∃ tail, (insertAll ids h bm).2.brokers = bm.brokers ++ tail := by
  induction ids generalizing h bm with
  | nil => exact ⟨[], by simp [insertAll]⟩
  | cons j rest ih =>
    rw [insertAll]
    rcases hlk : lookupA bm.brokers (PyKey.int j) with _ | r
    · obtain ⟨tail, ht⟩ := ih (insertBroker (h, bm) j).1 (insertBroker (h, bm) j).2
      rw [insertBroker_absent_brokers hlk] at ht
      exact ⟨(PyKey.int j, h.next) :: tail, by simpa [List.append_assoc] using ht⟩
    · rw [insertBroker_present hlk]
      exact ih h bm

theorem insertAll_lookup_pres (ids : List Int) (h : Heap) (bm : BrokerMapState)
    (k : PyKey) (r : Nat) (hlk : lookupA bm.brokers k = some r) :
    lookupA (insertAll ids h bm).2.brokers k = some r := by
  obtain ⟨tail, ht⟩ := insertAll_append ids h bm
  rw [ht, lookupA_append, hlk]

theorem insertAll_keys_iff (ids : List Int) (h : Heap) (bm : BrokerMapState) (k : PyKey) :
    k ∈ keysOf (insertAll ids h bm).2 ↔ k ∈ keysOf bm ∨ k ∈ ids.map PyKey.int := by
  induction ids generalizing h bm with
  | nil => simp [insertAll]
  | cons j rest ih =>
    rw [insertAll, ih]
    rcases hlk : lookupA bm.brokers (PyKey.int j) with _ | r
    · have hkeys : keysOf (insertBroker (h, bm) j).2 = keysOf bm ++ [PyKey.int j] := by
        simp [keysOf, insertBroker_absent_brokers hlk]
      rw [hkeys]
      simp only [List.mem_append, List.map_cons, List.mem_cons, List.mem_singleton]
      tauto
    · rw [insertBroker_present hlk]
      have himp : k = PyKey.int j → k ∈ keysOf bm := fun he =>
        he ▸ List.mem_map.mpr ⟨(PyKey.int j, r), lookupA_mem hlk, rfl⟩
      simp only [List.map_cons, List.mem_cons]
      tauto

theorem insertAll_lookup_new (ids : List Int) (h : Heap) (bm : BrokerMapState)
    (i : Int) (hi : i ∈ ids) (hnot : PyKey.int i ∉ keysOf bm) :
    ∃ r, lookupA (insertAll ids h bm).2.brokers (PyKey.int i) = some r ∧
      h.next ≤ r ∧ (insertAll ids h bm).1.objs r = some (Broker.initFields i) := by
  induction ids generalizing h bm with
  | nil => simp at hi
  | cons j rest ih =>
    rw [insertAll]
    rcases hlk : lookupA bm.brokers (PyKey.int j) with _ | r0
    · by_cases hij : i = j
      · subst hij
        have hlk2 : lookupA (insertBroker (h, bm) i).2.brokers (PyKey.int i) =
            some h.next := by
          rw [insertBroker_absent_brokers hlk, lookupA_append, hlk]
          simp [lookupA]
        refine ⟨h.next, insertAll_lookup_pres _ _ _ _ _ hlk2, le_refl _, ?_⟩
        have hlt : h.next < (insertBroker (h, bm) i).1.next := by
          rw [insertBroker_absent_next hlk]
          omega
        rw [insertAll_objs_lt _ _ _ _ hlt, insertBroker_absent_objs hlk]
        simp
      · have hi2 : i ∈ rest := by
          rcases List.mem_cons.mp hi with he | hm
          · exact absurd he hij
          · exact hm
        have hnot2 : PyKey.int i ∉ keysOf (insertBroker (h, bm) j).2 := by
          simp only [keysOf, insertBroker_absent_brokers hlk, List.map_append,
            List.mem_append, List.map_cons, List.map_nil, List.mem_singleton]
          rintro (hb | hj)
          · exact hnot hb
          · exact hij (by injection hj)
        obtain ⟨r, hr1, hr2, hr3⟩ := ih _ _ hi2 hnot2
        rw [insertBroker_absent_next hlk] at hr2
        exact ⟨r, hr1, by omega, hr3⟩
    · rw [insertBroker_present hlk]
      have hij : i ≠ j := by
        intro he
        exact hnot (he ▸ List.mem_map.mpr ⟨(PyKey.int j, r0), lookupA_mem hlk, rfl⟩)
      have hi2 : i ∈ rest := by
        rcases List.mem_cons.mp hi with he | hm
        · exact absurd he hij
        · exact hm
      exact ih h bm hi2 hnot

theorem insertBroker_WF {h : Heap} {bm : BrokerMapState} (j : Int)
    (wf : MapWF h bm) : MapWF (insertBroker (h, bm) j).1 (insertBroker (h, bm) j).2 := by
  rcases hlk : lookupA bm.brokers (PyKey.int j) with _ | r0
  · have hjnot : PyKey.int j ∉ bm.brokers.map Prod.fst :=
      (lookupA_eq_none_iff _ _).mp hlk
    have hbrk := @insertBroker_absent_brokers h bm j hlk
    have hnext := @insertBroker_absent_next h bm j hlk
    have hobjs := @insertBroker_absent_objs h bm j hlk
    refine ⟨?_, ?_, ?_, ?_, ?_⟩
    · rw [hbrk, List.map_append, List.nodup_append]
      refine ⟨wf.keysND, List.nodup_singleton _, ?_⟩
      intro a ha hb
      simp only [List.map_cons, List.map_nil, List.mem_singleton] at hb
      exact hjnot (hb ▸ ha)
    · rw [hbrk, List.map_append, List.nodup_append]
      refine ⟨wf.refsND, List.nodup_singleton _, ?_⟩
      intro a ha hb
      simp only [List.map_cons, List.map_nil, List.mem_singleton] at hb
      obtain ⟨p, hp, hpa⟩ := List.mem_map.mp ha
      have := wf.refsLt p hp
      omega
    · intro p hp
      rw [hbrk] at hp
      rw [hnext]
      rcases List.mem_append.mp hp with hold | hnew
      · have := wf.refsLt p hold
        omega
      · simp only [List.mem_singleton] at hnew
        subst hnew
        omega
    · intro p hp
      rw [hbrk] at hp
      rw [hobjs]
      rcases List.mem_append.mp hp with hold | hnew
      · have hlt := wf.refsLt p hold
        have hne : p.2 ≠ h.next := Nat.ne_of_lt hlt
        simp only [hne, if_false]
        exact wf.refsDom p hold
      · simp only [List.mem_singleton] at hnew
        subst hnew
        simp
    · intro x hx
      rw [hnext] at hx
      rw [hobjs]
      have hne : x ≠ h.next := by omega
      simp only [hne, if_false]
      exact wf.heapDom x (by omega)
  · rw [insertBroker_present hlk]
    exact wf

theorem insertAll_WF (ids : List Int) (h : Heap) (bm : BrokerMapState)
    (wf : MapWF h bm) : MapWF (insertAll ids h bm).1 (insertAll ids h bm).2 := by
  induction ids generalizing h bm with
  | nil => exact wf
  | cons j rest ih =>
    rw [insertAll]
    exact ih _ _ (insertBroker_WF j wf)

/-- Unfolding of the success branch of `BrokerMap._configure`. -/
theorem BrokerMap.configure_some (h : Heap) (bm : BrokerMapState)
    (children : List String) (ids : List Int)
    (hp : children.mapM pyIntParse = some ids) :
    BrokerMap.configure h bm (some children) =
      { heap := markDeadFold
          ((insertAll ids h bm).2.brokers.filter
            (fun p => decide (p.1 ∉ ids.map PyKey.int)))
          (insertAll ids h bm).1,
        state := ⟨(insertAll ids h bm).2.brokers.filter
            (fun p => decide (p.1 ∈ ids.map PyKey.int))⟩,
        watches := [⟨brokersPath, .mapCB⟩],
        fetches := [brokersPath],
        error := none } := by
  unfold BrokerMap.configure
  dsimp only
  rw [hp]
  dsimp only
  rw [insertAll_eq_foldl]
  rfl

/-! ### Claim C1: diff correctness of one `BrokerMap._configure` pass -/

/-- An id among the parsed children but not among the prior members is
bound, after the pass, to a newly created broker record at a previously
unallocated address. -/
theorem configure_some_new_broker (h : Heap) (bm : BrokerMapState)
    (children : List String) (ids : List Int) (i : Int)
    (wf : MapWF h bm) (hp : children.mapM pyIntParse = some ids)
    (hi : i ∈ ids) (hnot : PyKey.int i ∉ keysOf bm) :
    ∃ r, lookupA (BrokerMap.configure h bm (some children)).state.brokers
        (PyKey.int i) = some r ∧
      h.objs r = none ∧ h.next ≤ r ∧
      (BrokerMap.configure h bm (some children)).heap.objs r =
        some (Broker.initFields i) := by
  have hc := BrokerMap.configure_some h bm children ids hp
  have wf1 := insertAll_WF ids h bm wf
  simp only [hc]
  obtain ⟨r, hr1, hr2, hr3⟩ := insertAll_lookup_new ids h bm i hi hnot
  have hmem1 : (PyKey.int i, r) ∈ (insertAll ids h bm).2.brokers := lookupA_mem hr1
  have hialive : PyKey.int i ∈ ids.map PyKey.int := List.mem_map.mpr ⟨i, hi, rfl⟩
  have hmemK : (PyKey.int i, r) ∈
    (insertAll ids h bm).2.brokers.filter
      (fun p => decide (p.1 ∈ ids.map PyKey.int)) :=
    List.mem_filter.mpr ⟨hmem1, by simpa using hialive⟩
  have hkeepND : (((insertAll ids h bm).2.brokers.filter
    (fun p => decide (p.1 ∈ ids.map PyKey.int))).map Prod.fst).Nodup :=
    wf1.keysND.sublist ((List.filter_sublist _).map Prod.fst)
  have hrdead : r ∉ ((insertAll ids h bm).2.brokers.filter
    (fun p => decide (p.1 ∉ ids.map PyKey.int))).map Prod.snd := by
    intro hmem
    obtain ⟨q, hq, hqr⟩ := List.mem_map.mp hmem
    have hq1 := List.mem_filter.mp hq
    have hqeq : q = (PyKey.int i, r) :=
    List.inj_on_of_nodup_map wf1.refsND hq1.1 hmem1 (by rw [hqr])
    have hpred := hq1.2
    rw [hqeq] at hpred
    simp only [decide_eq_true_eq] at hpred
    exact hpred hialive
  refine ⟨r, lookupA_of_mem_nodup hmemK hkeepND, wf.heapDom r hr2, hr2, ?_⟩
  rw [markDeadFold_objs_not_mem _ _ _ hrdead, hr3]


/-- C1: for every well-formed prior membership map and every fetched
child-id list (all ids parseable), one `BrokerMap._configure` pass leaves
the registry keys equal to the integer ids of the children; every id in
`children` but not in the prior members is bound to a newly created broker
record (at a previously unallocated address, with initial fields); every
prior member id not among the children keeps its old object reference with
`is_dead` set to true and is no longer present in the members map. -/
theorem C1_diff_correctness (h : Heap) (bm : BrokerMapState)
    (children : List String) (ids : List Int)
    (wf : MapWF h bm) (hp : children.mapM pyIntParse = some ids) :
    C1Prop h bm children ids := by
  have hc := BrokerMap.configure_some h bm children ids hp
  have wf1 := insertAll_WF ids h bm wf
  unfold C1Prop
  refine ⟨?_, ?_,
    fun i hi hnot => configure_some_new_broker h bm children ids i wf hp hi hnot, ?_⟩
  · rw [hc]
  · simp only [hc]
    intro k
    constructor
    · intro hk
      simp only [keysOf, List.mem_map] at hk
      obtain ⟨p, hp2, hpk⟩ := hk
      have hf := List.mem_filter.mp hp2
      rw [← hpk]
      simpa using hf.2
    · intro hk
      have hk1 : k ∈ keysOf (insertAll ids h bm).2 :=
        (insertAll_keys_iff ids h bm k).mpr (Or.inr hk)
      simp only [keysOf, List.mem_map] at hk1 ⊢
      obtain ⟨p, hp2, hpk⟩ := hk1
      exact ⟨p, List.mem_filter.mpr ⟨hp2, by simpa [hpk] using hk⟩, hpk⟩
  · simp only [hc]
    intro k hk hnot
    obtain ⟨r, hr⟩ := exists_lookupA_of_mem hk
    have hmem0 : (k, r) ∈ bm.brokers := lookupA_mem hr
    obtain ⟨b, hb⟩ := Option.isSome_iff_exists.mp (wf.refsDom _ hmem0)
    obtain ⟨tail, htail⟩ := insertAll_append ids h bm
    have hmem1 : (k, r) ∈ (insertAll ids h bm).2.brokers := by
      rw [htail]
      exact List.mem_append_left _ hmem0
    have hmemD : (k, r) ∈ (insertAll ids h bm).2.brokers.filter
        (fun p => decide (p.1 ∉ ids.map PyKey.int)) :=
      List.mem_filter.mpr ⟨hmem1, by simpa using hnot⟩
    have hdeadND : (((insertAll ids h bm).2.brokers.filter
        (fun p => decide (p.1 ∉ ids.map PyKey.int))).map Prod.snd).Nodup :=
      wf1.refsND.sublist ((List.filter_sublist _).map Prod.snd)
    have h1r : (insertAll ids h bm).1.objs r = some b := by
      rw [insertAll_objs_lt ids h bm r (wf.refsLt _ hmem0), hb]
    refine ⟨r, b, hr, hb, ?_, ?_⟩
    · rw [markDeadFold_objs_mem _ _ k r hdeadND hmemD, h1r]
      rfl
    · intro hkk
      simp only [keysOf, List.mem_map] at hkk
      obtain ⟨p, hp2, hpk⟩ := hkk
      have hpred := (List.mem_filter.mp hp2).2
      simp only [decide_eq_true_eq, hpk] at hpred
      exact hnot (List.mem_map.mpr hpred)

/-- Witness for C1: a registry holding broker id 1 is reconfigured with
child list `["2"]`; id 2 is created fresh and id 1 is marked dead and
evicted. -/
theorem C1_diff_correctness_witness :
    MapWF ⟨fun x => if x = 0 then some (Broker.initFields 1) else none, 1⟩
        ⟨[(PyKey.int 1, 0)]⟩ ∧
    (["2"].mapM pyIntParse = some [2]) ∧
    C1Prop ⟨fun x => if x = 0 then some (Broker.initFields 1) else none, 1⟩
      ⟨[(PyKey.int 1, 0)]⟩ ["2"] [2] := by
  have wf : MapWF ⟨fun x => if x = 0 then some (Broker.initFields 1) else none, 1⟩
      ⟨[(PyKey.int 1, 0)]⟩ := by
    refine ⟨by simp, by simp, by simp, by simp, ?_⟩
    intro x hx
    exact if_neg (Nat.pos_iff_ne_zero.mp hx)
  exact ⟨wf, by decide, C1_diff_correctness _ _ _ _ wf (by decide)⟩

/-! ### Claim C4: missing brokers root raises a misconfiguration error -/

/-- C4: when the coordination service reports that `/brokers/ids` does not
exist (`NoNodeException`), `BrokerMap._configure` raises
`ImproperlyConfigured` and leaves the members map and the heap unchanged. -/
theorem C4_missing_root (h : Heap) (bm : BrokerMapState) :
    (BrokerMap.configure h bm none).error = some PyError.improperlyConfigured ∧
    (BrokerMap.configure h bm none).state = bm ∧
    (BrokerMap.configure h bm none).heap = h :=
  ⟨rfl, rfl, rfl⟩

/-! ### Branch characterizations of `Broker._configure` -/

theorem Broker.configure_none_eq {h : Heap} {r : Nat} {b : BrokerObj}
    (hb : h.get r = some b) :
    Broker.configure h r none =
      ⟨h, [], [brokerNodePath b.id], some PyError.noNode⟩ := by
  unfold Broker.configure
  rw [hb]

theorem Broker.configure_badShape_eq {h : Heap} {r : Nat} {b : BrokerObj} {d : String}
    (hb : h.get r = some b) (hlen : (pySplitColon d).length ≠ 3) :
    Broker.configure h r (some d) =
      ⟨h, [⟨brokerNodePath b.id, .brokerCB r⟩], [brokerNodePath b.id],
        some PyError.valueError⟩ := by
  unfold Broker.configure
  rw [hb]
  dsimp only
  rcases hsp : pySplitColon d with _ | ⟨a1, _ | ⟨a2, _ | ⟨a3, _ | ⟨a4, t⟩⟩⟩⟩
  · rfl
  · rfl
  · rfl
  · rw [hsp] at hlen
    simp at hlen
  · rfl

theorem Broker.configure_badPort_eq {h : Heap} {r : Nat} {b : BrokerObj}
    {d c hs ps : String}
    (hb : h.get r = some b) (hsp : pySplitColon d = [c, hs, ps])
    (hn : pyIntParse ps = none) :
    Broker.configure h r (some d) =
      ⟨h.set r { b with host := some hs },
        [⟨brokerNodePath b.id, .brokerCB r⟩], [brokerNodePath b.id],
        some PyError.valueError⟩ := by
  unfold Broker.configure
  rw [hb]
  dsimp only
  rw [hsp]
  dsimp only
  rw [hn]

theorem Broker.configure_ok_eq {h : Heap} {r : Nat} {b : BrokerObj}
    {d c hs ps : String} {n : Int}
    (hb : h.get r = some b) (hsp : pySplitColon d = [c, hs, ps])
    (hn : pyIntParse ps = some n) :
    Broker.configure h r (some d) =
      ⟨(h.set r { b with host := some hs }).set r
          { b with host := some hs, port := some n },
        [⟨brokerNodePath b.id, .brokerCB r⟩], [brokerNodePath b.id], none⟩ := by
  unfold Broker.configure
  rw [hb]
  dsimp only
  rw [hsp]
  dsimp only
  rw [hn]

/-! ### Claim C5: parse correctness on well-formed node values -/

/-- C5: for every well-formed node value whose colon-split is
`[creator, host, port]` with an integer port field, `Broker._configure`
succeeds and sets the broker host to the 2nd field and the port to the 3rd
field parsed as an integer, touching no other object; the creator field is
not consumed (the result does not depend on it). -/
theorem C5_parse_correctness (h : Heap) (r : Nat) (b : BrokerObj)
    (d c hs ps : String) (n : Int)
    (hb : h.get r = some b) (hsp : pySplitColon d = [c, hs, ps])
    (hn : pyIntParse ps = some n) :
    (Broker.configure h r (some d)).error = none ∧
    (Broker.configure h r (some d)).heap.objs r =
      some { b with host := some hs, port := some n } ∧
    (∀ x, x ≠ r → (Broker.configure h r (some d)).heap.objs x = h.objs x) := by
  rw [Broker.configure_ok_eq hb hsp hn]
  refine ⟨rfl, ?_, ?_⟩
  · simp [Heap.set]
  · intro x hx
    simp [Heap.set, hx]

/-- Witness for C5: the node value `"7:10.0.0.5:9092"` yields host
`"10.0.0.5"` and port `9092`. -/
theorem C5_parse_correctness_witness :
    (soloHeap (Broker.initFields 7)).get 0 = some (Broker.initFields 7) ∧
    pySplitColon "7:10.0.0.5:9092" = ["7", "10.0.0.5", "9092"] ∧
    pyIntParse "9092" = some 9092 ∧
    ((Broker.configure (soloHeap (Broker.initFields 7)) 0 (some "7:10.0.0.5:9092")).error
        = none ∧
      (Broker.configure (soloHeap (Broker.initFields 7)) 0
          (some "7:10.0.0.5:9092")).heap.objs 0 =
        some { Broker.initFields 7 with host := some "10.0.0.5", port := some 9092 } ∧
      (∀ x, x ≠ 0 →
        (Broker.configure (soloHeap (Broker.initFields 7)) 0
          (some "7:10.0.0.5:9092")).heap.objs x = (soloHeap (Broker.initFields 7)).objs x)) :=
  ⟨rfl, by decide, by decide,
    C5_parse_correctness (soloHeap (Broker.initFields 7)) 0 (Broker.initFields 7)
      "7:10.0.0.5:9092" "7" "10.0.0.5" "9092" 9092 rfl (by decide) (by decide)⟩

/-! ### Claim C2: what a malformed node value does to host/port -/

/-- Counterexample to C2 as stated: on the 3-field value `"a:b:xyz"` whose
port field is not an integer, `Broker._configure` raises `ValueError` but
the host has already been overwritten from `"oldhost"` to `"b"` by the
tuple unpacking, so host and port do not both keep their prior values. -/
theorem C2_counterexample :
    (Broker.configure (soloHeap oldBroker) 0 (some "a:b:xyz")).error =
      some PyError.valueError ∧
    ((Broker.configure (soloHeap oldBroker) 0 (some "a:b:xyz")).heap.objs 0).map
      BrokerObj.host = some (some "b") ∧
    (some (some "b") : Option (Option String)) ≠ some (some "oldhost") := by
  decide

/-- C2 (amended): on a malformed node value `Broker._configure` raises a
`ValueError`; prior host/port survive only in the wrong-field-count case,
while a 3-field value with a non-integer port leaves the host already
updated and the port unchanged. -/
theorem C2_amended_parse_failure (h : Heap) (r : Nat) (b : BrokerObj)
    (hb : h.get r = some b) : C2Prop h r b := by
  constructor
  · intro d hlen
    rw [Broker.configure_badShape_eq hb hlen]
    exact ⟨rfl, rfl⟩
  · intro d c hs ps hsp hn
    rw [Broker.configure_badPort_eq hb hsp hn]
    refine ⟨rfl, ?_, ?_⟩
    · simp [Heap.set]
    · intro x hx
      simp [Heap.set, hx]

/-- Witness for the amended C2 at a concrete broker object. -/
theorem C2_amended_parse_failure_witness :
    (soloHeap oldBroker).get 0 = some oldBroker ∧
    C2Prop (soloHeap oldBroker) 0 oldBroker :=
  ⟨rfl, C2_amended_parse_failure _ 0 _ rfl⟩

/-! ### Claim C3: the host/port pairing invariant -/

/-- Counterexample to C3 as stated: starting from a freshly constructed
broker (host and port both unset), one `_configure` call on the 3-field
value `"a:b:xyz"` leaves a reachable, not-dead state with host set to
`"b"` and port still unset: one of the pair is updated without the other. -/
theorem C3_counterexample :
    ((brokerRun (soloHeap (Broker.initFields 1)) 0 [some "a:b:xyz"]).objs 0).map
        (fun b => (b.host, b.port, b.is_dead)) = some (some "b", none, false) := by
  decide

/-- Inductive core for the amended C3: running `_configure` over a trace
of fetch results in which every 3-field value has a parseable port keeps
the host/port pair equal to the rendering of the running "last successful
parse" accumulator. -/
theorem brokerRun_hostPort (tr : List (Option String)) (h : Heap) (r : Nat)
    (b : BrokerObj) (acc : Option (String × Int))
    (hb : h.objs r = some b) (hacc : (b.host, b.port) = renderPair acc)
    (hgood : ∀ x ∈ tr, goodResp x = true) :
    ∃ b2, (brokerRun h r tr).objs r = some b2 ∧
      (b2.host, b2.port) = renderPair (lastParsedAux acc tr) := by
  induction tr generalizing h b acc with
  | nil => exact ⟨b, hb, hacc⟩
  | cons x rest ih =>
    have hgr : ∀ y ∈ rest, goodResp y = true :=
      fun y hy => hgood y (List.mem_cons_of_mem _ hy)
    rcases x with _ | d
    · rw [brokerRun, Broker.configure_none_eq hb]
      exact ih h b acc hb hacc hgr
    · rcases hsp : pySplitColon d with _ | ⟨a1, _ | ⟨a2, _ | ⟨a3, _ | ⟨a4, t⟩⟩⟩⟩
      · have hlen : (pySplitColon d).length ≠ 3 := by rw [hsp]; simp
        have hlp : lastParsedAux acc (some d :: rest) = lastParsedAux acc rest := by
          simp only [lastParsedAux, hsp]
        rw [brokerRun, Broker.configure_badShape_eq hb hlen, hlp]
        exact ih h b acc hb hacc hgr
      · have hlen : (pySplitColon d).length ≠ 3 := by rw [hsp]; simp
        have hlp : lastParsedAux acc (some d :: rest) = lastParsedAux acc rest := by
          simp only [lastParsedAux, hsp]
        rw [brokerRun, Broker.configure_badShape_eq hb hlen, hlp]
        exact ih h b acc hb hacc hgr
      · have hlen : (pySplitColon d).length ≠ 3 := by rw [hsp]; simp
        have hlp : lastParsedAux acc (some d :: rest) = lastParsedAux acc rest := by
          simp only [lastParsedAux, hsp]
        rw [brokerRun, Broker.configure_badShape_eq hb hlen, hlp]
        exact ih h b acc hb hacc hgr
      · have hg : (pyIntParse a3).isSome = true := by
          have hgx := hgood (some d) (List.mem_cons_self _ _)
          simpa only [goodResp, hsp] using hgx
        obtain ⟨n, hn⟩ := Option.isSome_iff_exists.mp hg
        have hlp : lastParsedAux acc (some d :: rest) =
            lastParsedAux (some (a2, n)) rest := by
          simp only [lastParsedAux, hsp, hn]
        rw [brokerRun, Broker.configure_ok_eq hb hsp hn, hlp]
        refine ih ((h.set r { b with host := some a2 }).set r
            { b with host := some a2, port := some n })
          { b with host := some a2, port := some n } (some (a2, n)) ?_ rfl hgr
        simp [Heap.set]
      · have hlen : (pySplitColon d).length ≠ 3 := by rw [hsp]; simp
        have hlp : lastParsedAux acc (some d :: rest) = lastParsedAux acc rest := by
          simp only [lastParsedAux, hsp]
        rw [brokerRun, Broker.configure_badShape_eq hb hlen, hlp]
        exact ih h b acc hb hacc hgr

/-- C3 (amended): for every broker state reachable from construction by a
sequence of `_configure` calls whose fetch results never hit the 3-field,
non-integer-port case, host and port are either both unset or both the
components of the last successfully parsed node value.  (The restriction
is forced by the counterexample: a 3-field value with a non-integer port
updates host alone.) -/
theorem C3_amended_invariant (h : Heap) (r : Nat) (i : Int)
    (tr : List (Option String))
    (hinit : h.objs r = some (Broker.initFields i))
    (hgood : ∀ x ∈ tr, goodResp x = true) :
    ∃ b, (brokerRun h r tr).objs r = some b ∧
      (b.host, b.port) = renderPair (lastParsedHostPort tr) :=
  brokerRun_hostPort tr h r (Broker.initFields i) none hinit rfl hgood

/-- Witness for the amended C3: a trace with a success, a missing node and
a wrong-field-count failure ends with host/port of the last success. -/
theorem C3_amended_invariant_witness :
    (soloHeap (Broker.initFields 1)).objs 0 = some (Broker.initFields 1) ∧
    (∀ x ∈ [some "c:h1:1", none, some "bad"], goodResp x = true) ∧
    (∃ b, (brokerRun (soloHeap (Broker.initFields 1)) 0
        [some "c:h1:1", none, some "bad"]).objs 0 = some b ∧
      (b.host, b.port) =
        renderPair (lastParsedHostPort [some "c:h1:1", none, some "bad"])) :=
  ⟨rfl, by decide,
    C3_amended_invariant (soloHeap (Broker.initFields 1)) 0 1
      [some "c:h1:1", none, some "bad"] rfl (by decide)⟩

/-! ### Claim C6: every configuration pass re-arms its watch -/

theorem brokerNodePath_ne (i : Int) : brokerNodePath i ≠ brokersPath := by
  intro he
  have hlen := congrArg (fun s => s.data.length) he
  simp only [brokerNodePath, brokersPath, String.data_append, List.length_append] at hlen
  simp at hlen
  omega

/-- Any `BrokerMap._configure` call whose children fetch succeeds registers
exactly the one-shot watch on `/brokers/ids` with itself as callback. -/
theorem BrokerMap.configure_watches_some (h : Heap) (bm : BrokerMapState)
    (children : List String) :
    (BrokerMap.configure h bm (some children)).watches =
      [⟨brokersPath, WatchCB.mapCB⟩] := by
  unfold BrokerMap.configure
  dsimp only
  rcases hm : children.mapM pyIntParse with _ | ids <;> rfl

/-- Any `Broker._configure` call whose data fetch succeeds registers
exactly the one-shot watch on its own node with itself as callback. -/
theorem Broker.configure_data_watches {h : Heap} {r : Nat} {b : BrokerObj}
    (hb : h.get r = some b) (d : String) :
    (Broker.configure h r (some d)).watches =
      [⟨brokerNodePath b.id, WatchCB.brokerCB r⟩] := by
  rcases hsp : pySplitColon d with _ | ⟨a1, _ | ⟨a2, _ | ⟨a3, _ | ⟨a4, t⟩⟩⟩⟩
  · rw [Broker.configure_badShape_eq hb (by rw [hsp]; simp)]
  · rw [Broker.configure_badShape_eq hb (by rw [hsp]; simp)]
  · rw [Broker.configure_badShape_eq hb (by rw [hsp]; simp)]
  · rcases hn : pyIntParse a3 with _ | n
    · rw [Broker.configure_badPort_eq hb hsp hn]
    · rw [Broker.configure_ok_eq hb hsp hn]
  · rw [Broker.configure_badShape_eq hb (by rw [hsp]; simp)]

/-- `Broker._configure` never changes the identity, the id field or the
cached client of the object it refreshes. -/
theorem Broker.configure_pres {h : Heap} {r : Nat} {b : BrokerObj}
    (hb : h.get r = some b) (resp : Option String) :
    ∃ b2, (Broker.configure h r resp).heap.get r = some b2 ∧
      b2.id = b.id ∧ b2.clientCache = b.clientCache := by
  rcases resp with _ | d
  · rw [Broker.configure_none_eq hb]
    exact ⟨b, hb, rfl, rfl⟩
  · rcases hsp : pySplitColon d with _ | ⟨a1, _ | ⟨a2, _ | ⟨a3, _ | ⟨a4, t⟩⟩⟩⟩
    · rw [Broker.configure_badShape_eq hb (by rw [hsp]; simp)]
      exact ⟨b, hb, rfl, rfl⟩
    · rw [Broker.configure_badShape_eq hb (by rw [hsp]; simp)]
      exact ⟨b, hb, rfl, rfl⟩
    · rw [Broker.configure_badShape_eq hb (by rw [hsp]; simp)]
      exact ⟨b, hb, rfl, rfl⟩
    · rcases hn : pyIntParse a3 with _ | n
      · rw [Broker.configure_badPort_eq hb hsp hn]
        refine ⟨{ b with host := some a2 }, ?_, rfl, rfl⟩
        simp [Heap.get, Heap.set]
      · rw [Broker.configure_ok_eq hb hsp hn]
        refine ⟨{ b with host := some a2, port := some n }, ?_, rfl, rfl⟩
        simp [Heap.get, Heap.set]
    · rw [Broker.configure_badShape_eq hb (by rw [hsp]; simp)]
      exact ⟨b, hb, rfl, rfl⟩

/-- C6: a successful `BrokerMap._configure` pass registers the watch on
`/brokers/ids` whose callback is `_configure` itself, and a successful
`Broker._configure` pass registers the watch on `/brokers/ids/<id>` whose
callback is the `_configure` of that broker; delivering the next change to either
registered watch runs the corresponding `_configure` again, which
registers the same watch again, so a second subsequent remote change is
still observed. -/
theorem C6_watch_rearm (h : Heap) (bm : BrokerMapState) (children c2 : List String)
    (r : Nat) (b : BrokerObj) (d d2 : String) (hb : h.get r = some b) :
    (BrokerMap.configure h bm (some children)).watches =
      [⟨brokersPath, WatchCB.mapCB⟩] ∧
    (Broker.configure h r (some d)).watches =
      [⟨brokerNodePath b.id, WatchCB.brokerCB r⟩] ∧
    (∀ w ∈ (BrokerMap.configure h bm (some children)).watches,
      ∃ res2, fireWatch w (BrokerMap.configure h bm (some children)).heap
          (BrokerMap.configure h bm (some children)).state (.kids (some c2)) =
            some res2 ∧
        res2.watches = [⟨brokersPath, WatchCB.mapCB⟩]) ∧
    (∀ w ∈ (Broker.configure h r (some d)).watches,
      ∃ res2, fireWatch w (Broker.configure h r (some d)).heap bm
          (.dat (some d2)) = some res2 ∧
        res2.watches = [⟨brokerNodePath b.id, WatchCB.brokerCB r⟩]) := by
  refine ⟨BrokerMap.configure_watches_some h bm children,
    Broker.configure_data_watches hb d, ?_, ?_⟩
  · intro w hw
    rw [BrokerMap.configure_watches_some h bm children] at hw
    simp only [List.mem_singleton] at hw
    subst hw
    refine ⟨_, rfl, ?_⟩
    exact BrokerMap.configure_watches_some _ _ c2
  · intro w hw
    rw [Broker.configure_data_watches hb d] at hw
    simp only [List.mem_singleton] at hw
    subst hw
    obtain ⟨b2, hb2, hid, _⟩ := Broker.configure_pres hb (some d)
    refine ⟨_, rfl, ?_⟩
    rw [Broker.configure_data_watches hb2 d2, hid]

/-- Witness for C6 at a concrete registry, broker and node values. -/
theorem C6_watch_rearm_witness :
    (soloHeap (Broker.initFields 5)).get 0 = some (Broker.initFields 5) ∧
    ((BrokerMap.configure (soloHeap (Broker.initFields 5)) ⟨[]⟩ (some ["5"])).watches =
      [⟨brokersPath, WatchCB.mapCB⟩] ∧
    (Broker.configure (soloHeap (Broker.initFields 5)) 0 (some "a:b:1")).watches =
      [⟨brokerNodePath (Broker.initFields 5).id, WatchCB.brokerCB 0⟩] ∧
    (∀ w ∈ (BrokerMap.configure (soloHeap (Broker.initFields 5)) ⟨[]⟩ (some ["5"])).watches,
      ∃ res2, fireWatch w
          (BrokerMap.configure (soloHeap (Broker.initFields 5)) ⟨[]⟩ (some ["5"])).heap
          (BrokerMap.configure (soloHeap (Broker.initFields 5)) ⟨[]⟩ (some ["5"])).state
          (.kids (some ["6"])) = some res2 ∧
        res2.watches = [⟨brokersPath, WatchCB.mapCB⟩]) ∧
    (∀ w ∈ (Broker.configure (soloHeap (Broker.initFields 5)) 0 (some "a:b:1")).watches,
      ∃ res2, fireWatch w
          (Broker.configure (soloHeap (Broker.initFields 5)) 0 (some "a:b:1")).heap ⟨[]⟩
          (.dat (some "c:d:2")) = some res2 ∧
        res2.watches = [⟨brokerNodePath (Broker.initFields 5).id, WatchCB.brokerCB 0⟩])) :=
  ⟨rfl, C6_watch_rearm (soloHeap (Broker.initFields 5)) ⟨[]⟩ ["5"] ["6"] 0
    (Broker.initFields 5) "a:b:1" "c:d:2" rfl⟩

/-! ### Claim C7: missing-id lookup raises a distinct lookup error -/

/-- C7: on a configured registry state, `get(id)` for an id not currently
present raises `KeyError`, which is a different exception from the
`ImproperlyConfigured` misconfiguration error. -/
theorem C7_lookup_error (bm : BrokerMapState) (k : PyKey)
    (hk : k ∉ keysOf bm) :
    BrokerMap.get bm k = Except.error PyError.keyError ∧
    PyError.keyError ≠ PyError.improperlyConfigured := by
  refine ⟨?_, by decide⟩
  unfold BrokerMap.get
  rw [(lookupA_eq_none_iff _ _).mpr hk]

/-- Witness for C7: looking up id 2 in a registry holding only id 1. -/
theorem C7_lookup_error_witness :
    PyKey.int 2 ∉ keysOf (⟨[(PyKey.int 1, 0)]⟩ : BrokerMapState) ∧
    (BrokerMap.get ⟨[(PyKey.int 1, 0)]⟩ (PyKey.int 2) =
        Except.error PyError.keyError ∧
      PyError.keyError ≠ PyError.improperlyConfigured) :=
  ⟨by decide, C7_lookup_error ⟨[(PyKey.int 1, 0)]⟩ (PyKey.int 2) (by decide)⟩

/-! ### Claim C8: new records are created unset and without a data fetch -/

/-- C8: an id newly inserted by a `BrokerMap._configure` pass is bound to
a record with host and port unset and `is_dead` false, and the pass
fetches only the children of `/brokers/ids` — no per-broker data node is
fetched by the registry. -/
theorem C8_lazy_creation (h : Heap) (bm : BrokerMapState)
    (children : List String) (ids : List Int) (i : Int)
    (wf : MapWF h bm) (hp : children.mapM pyIntParse = some ids)
    (hi : i ∈ ids) (hnot : PyKey.int i ∉ keysOf bm) :
    ∃ r b, lookupA (BrokerMap.configure h bm (some children)).state.brokers
        (PyKey.int i) = some r ∧
      (BrokerMap.configure h bm (some children)).heap.objs r = some b ∧
      b.host = none ∧ b.port = none ∧ b.is_dead = false ∧
      (BrokerMap.configure h bm (some children)).fetches = [brokersPath] ∧
      (∀ j : Int, brokerNodePath j ∉ (BrokerMap.configure h bm (some children)).fetches) := by
  obtain ⟨r, hlk, hnone, hle, hobj⟩ :=
    configure_some_new_broker h bm children ids i wf hp hi hnot
  have hfetch : (BrokerMap.configure h bm (some children)).fetches = [brokersPath] := by
    rw [BrokerMap.configure_some h bm children ids hp]
  refine ⟨r, Broker.initFields i, hlk, hobj, rfl, rfl, rfl, hfetch, ?_⟩
  intro j hmem
  rw [hfetch] at hmem
  simp only [List.mem_singleton] at hmem
  exact brokerNodePath_ne j hmem

/-- Witness for C8: configuring an empty registry with child `"3"`. -/
theorem C8_lazy_creation_witness :
    MapWF ⟨fun _ => none, 0⟩ ⟨[]⟩ ∧
    (["3"].mapM pyIntParse = some [3]) ∧
    (3 : Int) ∈ [(3 : Int)] ∧
    PyKey.int 3 ∉ keysOf (⟨[]⟩ : BrokerMapState) ∧
    (∃ r b, lookupA (BrokerMap.configure ⟨fun _ => none, 0⟩ ⟨[]⟩ (some ["3"])).state.brokers
        (PyKey.int 3) = some r ∧
      (BrokerMap.configure ⟨fun _ => none, 0⟩ ⟨[]⟩ (some ["3"])).heap.objs r = some b ∧
      b.host = none ∧ b.port = none ∧ b.is_dead = false ∧
      (BrokerMap.configure ⟨fun _ => none, 0⟩ ⟨[]⟩ (some ["3"])).fetches = [brokersPath] ∧
      (∀ j : Int, brokerNodePath j ∉
        (BrokerMap.configure ⟨fun _ => none, 0⟩ ⟨[]⟩ (some ["3"])).fetches)) := by
  have wf : MapWF ⟨fun _ => none, 0⟩ ⟨[]⟩ :=
    ⟨List.nodup_nil, List.nodup_nil, by simp, by simp, fun x hx => rfl⟩
  exact ⟨wf, by decide, by decide, by decide,
    C8_lazy_creation ⟨fun _ => none, 0⟩ ⟨[]⟩ ["3"] [3] 3 wf (by decide) (by decide) (by decide)⟩

/-! ### Claim C9: the client property memoizes one Client per broker -/

theorem Broker.client_first {h : Heap} {r : Nat} {b : BrokerObj}
    (hb : h.get r = some b) (hcc : b.clientCache = none) :
    Broker.client h r = some (heapAfterClient h r b, clientOf b h) := by
  unfold Broker.client
  rw [hb]
  dsimp only
  rw [hcc]
  rfl

theorem Broker.client_cached {h : Heap} {r : Nat} {b : BrokerObj} {c : ClientObj}
    (hb : h.get r = some b) (hcc : b.clientCache = some c) :
    Broker.client h r = some (h, c) := by
  unfold Broker.client
  rw [hb]
  dsimp only
  rw [hcc]

theorem Broker.markDead_eq {h : Heap} {r : Nat} {b : BrokerObj}
    (hb : h.get r = some b) :
    Broker.markDead h r = h.set r { b with is_dead := true } := by
  unfold Broker.markDead
  rw [hb]

/-- C9: the first access to the `client` property of a broker whose cache
is empty creates one `Client` from the current host and port; every later
access returns that identical object (same identity, no new allocation),
even after a `_configure` refresh changes host or port and even after the
broker is marked dead. -/
theorem C9_client_memoized (h : Heap) (r : Nat) (b : BrokerObj)
    (hb : h.get r = some b) (hcc : b.clientCache = none) :
    ∃ h1 c, Broker.client h r = some (h1, c) ∧
      c.host = b.host ∧ c.port = b.port ∧ c.objId = h.next ∧
      Broker.client h1 r = some (h1, c) ∧
      (∀ resp, Broker.client (Broker.configure h1 r resp).heap r =
        some ((Broker.configure h1 r resp).heap, c)) ∧
      Broker.client (Broker.markDead h1 r) r = some (Broker.markDead h1 r, c) := by
  have hfirst := Broker.client_first hb hcc
  have hb1 : (heapAfterClient h r b).get r =
      some { b with clientCache := some (clientOf b h) } := by
    simp [heapAfterClient, Heap.get, Heap.set]
  have hcached : Broker.client (heapAfterClient h r b) r =
      some (heapAfterClient h r b, clientOf b h) := Broker.client_cached hb1 rfl
  refine ⟨_, _, hfirst, rfl, rfl, rfl, hcached, ?_, ?_⟩
  · intro resp
    obtain ⟨b2, hb2, _, hcache⟩ := Broker.configure_pres hb1 resp
    exact Broker.client_cached hb2 hcache
  · rw [Broker.markDead_eq hb1]
    have hb3 : ((heapAfterClient h r b).set r
        { b with is_dead := true, clientCache := some (clientOf b h) }).get r =
        some { b with is_dead := true, clientCache := some (clientOf b h) } := by
      simp [Heap.get, Heap.set]
    exact Broker.client_cached hb3 rfl

/-- Witness for C9 at a concrete configured broker. -/
theorem C9_client_memoized_witness :
    (soloHeap oldBroker).get 0 = some oldBroker ∧
    oldBroker.clientCache = none ∧
    (∃ h1 c, Broker.client (soloHeap oldBroker) 0 = some (h1, c) ∧
      c.host = oldBroker.host ∧ c.port = oldBroker.port ∧
      c.objId = (soloHeap oldBroker).next ∧
      Broker.client h1 0 = some (h1, c) ∧
      (∀ resp, Broker.client (Broker.configure h1 0 resp).heap 0 =
        some ((Broker.configure h1 0 resp).heap, c)) ∧
      Broker.client (Broker.markDead h1 0) 0 = some (Broker.markDead h1 0, c)) :=
  ⟨rfl, rfl, C9_client_memoized (soloHeap oldBroker) 0 oldBroker rfl rfl⟩

/-! ### Claim C10: broker ids are normalized to integers -/

theorem BrokerMap.configure_badIds_eq (h : Heap) (bm : BrokerMapState)
    (children : List String) (hmm : children.mapM pyIntParse = none) :
    BrokerMap.configure h bm (some children) =
      ⟨h, bm, [⟨brokersPath, WatchCB.mapCB⟩], [brokersPath],
        some PyError.valueError⟩ := by
  unfold BrokerMap.configure
  dsimp only
  rw [hmm]

/-- C10: `Broker.__init__` stores `int(id)` whatever form the id argument
takes; the members map is keyed by integer keys (and every configure pass
keeps it so); hence on a registry containing integer id `n`, `get` with
the int key returns the broker while `get` with the decimal string form
of `n` raises `KeyError`. -/
theorem C10_int_normalized (k : PyKey) (m : Int) (bm : BrokerMapState)
    (n : Int) (r : Nat)
    (hm : pyInt k = some m)
    (hall : ∀ k2 ∈ keysOf bm, ∃ j : Int, k2 = PyKey.int j)
    (hn : lookupA bm.brokers (PyKey.int n) = some r) :
    Broker.init k = Except.ok (Broker.initFields m) ∧
    BrokerMap.get bm (PyKey.int n) = Except.ok r ∧
    BrokerMap.get bm (PyKey.str (toString n)) = Except.error PyError.keyError ∧
    (∀ (h : Heap) (resp : Option (List String)) (k2 : PyKey),
      k2 ∈ keysOf (BrokerMap.configure h bm resp).state → ∃ j : Int, k2 = PyKey.int j) := by
  refine ⟨?_, ?_, ?_, ?_⟩
  · unfold Broker.init
    rw [hm]
  · unfold BrokerMap.get
    rw [hn]
  · unfold BrokerMap.get
    have hnotmem : PyKey.str (toString n) ∉ bm.brokers.map Prod.fst := by
      intro hmem
      obtain ⟨j, hj⟩ := hall _ hmem
      exact PyKey.noConfusion hj
    rw [(lookupA_eq_none_iff _ _).mpr hnotmem]
  · intro h resp k2 hk2
    rcases resp with _ | children
    · exact hall k2 hk2
    · rcases hmm : children.mapM pyIntParse with _ | ids
      · rw [BrokerMap.configure_badIds_eq h bm children hmm] at hk2
        exact hall k2 hk2
      · rw [BrokerMap.configure_some h bm children ids hmm] at hk2
        simp only [keysOf, List.mem_map] at hk2
        obtain ⟨p, hp2, hpk⟩ := hk2
        have hp3 := (List.mem_filter.mp hp2).1
        have hp4 : p.1 ∈ keysOf (insertAll ids h bm).2 :=
          List.mem_map.mpr ⟨p, hp3, rfl⟩
        rcases (insertAll_keys_iff ids h bm p.1).mp hp4 with hold | hnew
        · exact hpk ▸ hall p.1 hold
        · obtain ⟨j, hj1, hj2⟩ := List.mem_map.mp hnew
          exact ⟨j, by rw [← hpk, ← hj2]⟩

/-- Witness for C10: the string key `"5"` converts to 5 in the broker
constructor, and string-key lookup of `"1"` misses a registry keyed by
integer 1. -/
theorem C10_int_normalized_witness :
    pyInt (PyKey.str "5") = some 5 ∧
    (∀ k2 ∈ keysOf (⟨[(PyKey.int 1, 0)]⟩ : BrokerMapState), ∃ j : Int, k2 = PyKey.int j) ∧
    lookupA [(PyKey.int 1, 0)] (PyKey.int 1) = some 0 ∧
    (Broker.init (PyKey.str "5") = Except.ok (Broker.initFields 5) ∧
      BrokerMap.get ⟨[(PyKey.int 1, 0)]⟩ (PyKey.int 1) = Except.ok 0 ∧
      BrokerMap.get ⟨[(PyKey.int 1, 0)]⟩ (PyKey.str (toString (1 : Int))) =
        Except.error PyError.keyError ∧
      (∀ (h : Heap) (resp : Option (List String)) (k2 : PyKey),
        k2 ∈ keysOf (BrokerMap.configure h ⟨[(PyKey.int 1, 0)]⟩ resp).state →
          ∃ j : Int, k2 = PyKey.int j)) := by
  have hall : ∀ k2 ∈ keysOf (⟨[(PyKey.int 1, 0)]⟩ : BrokerMapState),
      ∃ j : Int, k2 = PyKey.int j := by
    intro k2 hk2
    simp only [keysOf, List.map_cons, List.map_nil, List.mem_singleton] at hk2
    exact ⟨1, hk2⟩
  exact ⟨by decide, hall, by decide,
    C10_int_normalized (PyKey.str "5") 5 ⟨[(PyKey.int 1, 0)]⟩ 1 0
      (by decide) hall (by decide)⟩

end Samsa
